import Mathlib

/-!
Shallow embedding of `src/object-store/object_accessor.hpp` (realm-js object
store): the object materialization algorithm `Object::create`, the property
setter `Object::set_property_value` and its per-type dispatch
`Object::set_property_value_impl`, together with a model of the storage
backend (tables of rows of typed column values) and of the per-front-end
`NativeAccessor` conversion capability.

Modelling conventions:
* machine integers are `Int`/`Nat`; float, double and datetime values are
  carried opaquely as `Int` (this layer performs no arithmetic on them,
  it only moves them from the accessor into a column);
* C++ exceptions become an error value paired with the state at throw
  time: every stateful operation returns `Realm × Except RError α`, so a
  failing call still reports the mutations already performed (the source
  performs no rollback);
* the storage backend and schema registry are external collaborators of
  this file; they are modelled by plain tables/association lists below.
-/

/-- Error kinds thrown by the object store, by payload.  The source throws
`std::runtime_error` with a message; each constructor records the data
interpolated into that message. -/
inductive RError where
  | transactionState
  | unknownProperty (prop objType : String)
  | duplicateKey (objType : String)
  | missingValue (prop : String)
  | unsupportedType
  | conversion (msg : String)
deriving DecidableEq, Repr

/-- The closed property-type variant of the source (`PropertyTypeBool` …
`PropertyTypeArray`). `data` is Binary, `any` is the deprecated LegacyAny. -/
inductive PropertyType where
  | bool | int | float | double | string | data | any | date | object | array
deriving DecidableEq, Repr

/-- One schema property: name, type, link target type name, storage column
index, primary-key flag (fields of `realm::Property` used by the source). -/
structure Property where
  name : String
  type : PropertyType
  object_type : String
  table_column : Nat
  is_primary : Bool
deriving DecidableEq, Repr

/-- Schema for one object type: name, ordered property list, primary-key
property name (empty when none), mirroring `realm::ObjectSchema`. -/
structure ObjectSchema where
  name : String
  properties : List Property
  primary_key : String
deriving DecidableEq, Repr

/-- Modelled from the spec: `ObjectSchema::property_for_name` lives in the
schema registry (object_store), outside the given source file; the spec says
"Resolve propertyName against the schema" over the ordered property list. -/
def ObjectSchema.property_for_name (s : ObjectSchema) (n : String) : Option Property :=
  s.properties.find? (fun p => p.name = n)

/-- Modelled from the spec: `ObjectSchema::primary_key_property` resolves the
declared primary-key name against the property list ("optional primary-key
property"); a schema with no primary key yields `none`. -/
def ObjectSchema.primary_key_property (s : ObjectSchema) : Option Property :=
  s.property_for_name s.primary_key

/-- A stored column value in a row of the storage backend.  `vNone` is the
content of a never-written column of this model. -/
inductive StoredValue where
  | vNone
  | vBool (b : Bool)
  | vInt (n : Int)
  | vFloat (x : Int)
  | vDouble (x : Int)
  | vString (s : String)
  | vBinary (s : String)
  | vDate (d : Int)
  | vLink (target : Option Nat)
  | vLinkList (targets : List Nat)
deriving DecidableEq, Repr

/-- A row: finite map from column index to stored value. -/
abbrev Row := List (Nat × StoredValue)

/-- A table: rows in allocation order; `add_empty_row` appends. -/
abbrev Table := List Row

/-- Modelled from the spec: the enclosing realm (shared_realm is not part of
the given source).  The spec needs only the write-transaction flag and the
backing tables keyed by object-type name. -/
structure Realm where
  in_transaction : Bool
  tables : List (String × Table)
deriving DecidableEq, Repr

def rowGet (row : Row) (c : Nat) : StoredValue :=
  match row with
  | [] => .vNone
  | (c', v) :: rest => if c' = c then v else rowGet rest c

def rowSet (row : Row) (c : Nat) (v : StoredValue) : Row :=
  match row with
  | [] => [(c, v)]
  | (c', v') :: rest => if c' = c then (c, v) :: rest else (c', v') :: rowSet rest c v

def lookupTable (ts : List (String × Table)) (n : String) : Table :=
  match ts with
  | [] => []
  | (k, t) :: rest => if k = n then t else lookupTable rest n

def updateTables (ts : List (String × Table)) (n : String) (t : Table) :
    List (String × Table) :=
  match ts with
  | [] => [(n, t)]
  | (k, t') :: rest => if k = n then (n, t) :: rest else (k, t') :: updateTables rest n t

/-- `ObjectStore::table_for_object_type`: resolve the backing table. -/
def getTable (r : Realm) (n : String) : Table := lookupTable r.tables n

def setTable (r : Realm) (n : String) (t : Table) : Realm :=
  { r with tables := updateTables r.tables n t }

/-- `table->get(i)`: the row at index `i`. -/
def getRow (t : Table) (i : Nat) : Row := t.getD i []

/-- Write value `v` to column `c` of row `i` of table `tn`. -/
def realmSetCol (r : Realm) (tn : String) (i c : Nat) (v : StoredValue) : Realm :=
  setTable r tn ((getTable r tn).set i (rowSet (getRow (getTable r tn) i) c v))

theorem rowGet_rowSet_same (row : Row) (c : Nat) (v : StoredValue) :
    rowGet (rowSet row c v) c = v := by
  induction row with
  | nil => simp [rowGet, rowSet]
  | cons hd tl ih =>
    obtain ⟨c', v'⟩ := hd
    by_cases h : c' = c <;> simp [rowGet, rowSet, h, ih]

theorem rowGet_rowSet_other (row : Row) (c c' : Nat) (v : StoredValue) (h : c' ≠ c) :
    rowGet (rowSet row c v) c' = rowGet row c' := by
  have hcc : ¬(c = c') := fun hh => h hh.symm
  induction row with
  | nil => simp [rowGet, rowSet, hcc]
  | cons hd tl ih =>
    obtain ⟨c0, v0⟩ := hd
    by_cases h0 : c0 = c
    · subst h0
      simp [rowGet, rowSet, hcc]
    · by_cases h1 : c0 = c' <;> simp [rowGet, rowSet, h0, h1, ih, h]

theorem rowSet_rowSet (row : Row) (c : Nat) (v v' : StoredValue) :
    rowSet (rowSet row c v) c v' = rowSet row c v' := by
  induction row with
  | nil => simp [rowSet]
  | cons hd tl ih =>
    obtain ⟨c0, v0⟩ := hd
    by_cases h0 : c0 = c <;> simp [rowSet, h0, ih]

theorem lookupTable_updateTables_same (ts : List (String × Table)) (n : String) (t : Table) :
    lookupTable (updateTables ts n t) n = t := by
  induction ts with
  | nil => simp [lookupTable, updateTables]
  | cons hd tl ih =>
    obtain ⟨k, t'⟩ := hd
    by_cases h : k = n <;> simp [lookupTable, updateTables, h, ih]

theorem updateTables_updateTables (ts : List (String × Table)) (n : String) (t t' : Table) :
    updateTables (updateTables ts n t) n t' = updateTables ts n t' := by
  induction ts with
  | nil => simp [updateTables]
  | cons hd tl ih =>
    obtain ⟨k, t0⟩ := hd
    by_cases h : k = n <;> simp [updateTables, h, ih]

theorem getTable_setTable_same (r : Realm) (n : String) (t : Table) :
    getTable (setTable r n t) n = t := by
  simp [getTable, setTable, lookupTable_updateTables_same]

theorem setTable_setTable (r : Realm) (n : String) (t t' : Table) :
    setTable (setTable r n t) n t' = setTable r n t' := by
  simp [setTable, updateTables_updateTables]

theorem getD_set_self (t : Table) (i : Nat) (row : Row) :
    (t.set i row).getD i [] = if i < t.length then row else [] := by
  induction t generalizing i with
  | nil => simp [List.set]
  | cons hd tl ih =>
    cases i with
    | zero => simp
    | succ n => simpa using ih n

theorem getD_set_other (t : Table) (i i' : Nat) (row : Row) (h : i' ≠ i) :
    (t.set i row).getD i' [] = t.getD i' [] := by
  induction t generalizing i i' with
  | nil => simp [List.set]
  | cons hd tl ih =>
    cases i with
    | zero =>
      cases i' with
      | zero => exact absurd rfl h
      | succ m => simp
    | succ n =>
      cases i' with
      | zero => simp
      | succ m => simpa using ih n m (fun hh => h (by omega))

/-- A persisted object handle: `Object{realm, object_schema, row}` of the
source; the row handle is the pair (backing table name, row index). -/
structure Object where
  schema : ObjectSchema
  tableName : String
  rowIndex : Nat
deriving DecidableEq, Repr

/-- Write to one column of the object's row (`row.set_*` of the backend). -/
def objSetCol (r : Realm) (o : Object) (c : Nat) (v : StoredValue) : Realm :=
  realmSetCol r o.tableName o.rowIndex c v

/-- Read one column of the object's row. -/
def objGetCol (r : Realm) (o : Object) (c : Nat) : StoredValue :=
  rowGet (getRow (getTable r o.tableName) o.rowIndex) c

/-- View a stored value as an ordered link collection
(`row.get_linklist`); a column never written as a link list reads as empty. -/
def getLinkList (v : StoredValue) : List Nat :=
  match v with
  | .vLinkList ls => ls
  | _ => []

/-- First row of `t` whose columns satisfy `pred`, as a row index
(`table->find_first_*` of the storage backend). -/
def findFirst (pred : Row → Bool) : Table → Option Nat
  | [] => none
  | row :: rest => if pred row then some 0 else (findFirst pred rest).map (· + 1)

/-- `table->find_first_string(col, s)`: first row whose column `c` stores
exactly the string `s`. -/
def find_first_string (t : Table) (c : Nat) (s : String) : Option Nat :=
  findFirst (fun row => decide (rowGet row c = StoredValue.vString s)) t

/-- `table->find_first_int(col, n)`: first row whose column `c` stores
exactly the integer `n`. -/
def find_first_int (t : Table) (c : Nat) (n : Int) : Option Nat :=
  findFirst (fun row => decide (rowGet row c = StoredValue.vInt n)) t

/-- The `NativeAccessor<ValueType, ContextType>` capability contract: the
per-front-end conversion functions the materializer is written against.
Fallible conversions return `Except`; `to_object_index` may create objects,
so it threads the realm state (and reports the state also on failure). -/
structure NativeAccessor (Ctx Value : Type) where
  dict_has_value_for_key : Ctx → Value → String → Bool
  dict_value_for_key : Ctx → Value → String → Value
  has_default_value_for_property : Ctx → ObjectSchema → String → Bool
  default_value_for_property : Ctx → ObjectSchema → String → Value
  to_bool : Ctx → Value → Except RError Bool
  to_long : Ctx → Value → Except RError Int
  to_float : Ctx → Value → Except RError Int
  to_double : Ctx → Value → Except RError Int
  to_string : Ctx → Value → Except RError String
  to_datetime : Ctx → Value → Except RError Int
  is_null : Ctx → Value → Bool
  to_object_index : Ctx → Realm → Value → String → Bool → Realm × Except RError Nat
  array_size : Ctx → Value → Nat
  array_value_at_index : Ctx → Value → Nat → Value

/-- The `Mixed` value type of the deprecated Any arm; no value of it is ever
produced by this layer. -/
inductive Mixed : Type

/-- `NativeAccessor::to_mixed`: defined in the source itself (not
specialized per front-end) to unconditionally throw
"'Any' type is unsupported". -/
def to_mixed {Ctx Value : Type} (_ctx : Ctx) (_val : Value) : Except RError Mixed :=
  .error .unsupportedType

variable {Ctx Value : Type}

/-- The loop body of the `PropertyTypeArray` arm of
`set_property_value_impl`: for each remaining input index, convert the
element with `to_object_index` and append the resulting row index to the
column's link collection (`link_view->add`). -/
def addLinks (A : NativeAccessor Ctx Value) (ctx : Ctx) (o : Object) (col : Nat)
    (ty : String) (value : Value) (try_update : Bool) :
    List Nat → Realm → Realm × Except RError Unit
  | [], r => (r, .ok ())
  | k :: rest, r =>
    match A.to_object_index ctx r (A.array_value_at_index ctx value k) ty try_update with
    | (r2, .error e) => (r2, .error e)
    | (r2, .ok idx) =>
      addLinks A ctx o col ty value try_update rest
        (objSetCol r2 o col (.vLinkList (getLinkList (objGetCol r2 o col) ++ [idx])))

/-- `Object::set_property_value_impl`: per-type dispatch writing one
property's converted value to the row. -/
def set_property_value_impl (A : NativeAccessor Ctx Value) (ctx : Ctx) (o : Object)
    (property : Property) (value : Value) (try_update : Bool) (r : Realm) :
    Realm × Except RError Unit :=
  let column := property.table_column
  match property.type with
  | .bool =>
    match A.to_bool ctx value with
    | .error e => (r, .error e)
    | .ok b => (objSetCol r o column (.vBool b), .ok ())
  | .int =>
    match A.to_long ctx value with
    | .error e => (r, .error e)
    | .ok n => (objSetCol r o column (.vInt n), .ok ())
  | .float =>
    match A.to_float ctx value with
    | .error e => (r, .error e)
    | .ok x => (objSetCol r o column (.vFloat x), .ok ())
  | .double =>
    match A.to_double ctx value with
    | .error e => (r, .error e)
    | .ok x => (objSetCol r o column (.vDouble x), .ok ())
  | .string =>
    match A.to_string ctx value with
    | .error e => (r, .error e)
    | .ok s => (objSetCol r o column (.vString s), .ok ())
  | .data =>
    match A.to_string ctx value with
    | .error e => (r, .error e)
    | .ok s => (objSetCol r o column (.vBinary s), .ok ())
  | .any =>
    match to_mixed ctx value with
    | .error e => (r, .error e)
    | .ok m => nomatch m
  | .date =>
    match A.to_datetime ctx value with
    | .error e => (r, .error e)
    | .ok d => (objSetCol r o column (.vDate d), .ok ())
  | .object =>
    if A.is_null ctx value then
      (objSetCol r o column (.vLink none), .ok ())
    else
      match A.to_object_index ctx r value property.object_type try_update with
      | (r2, .error e) => (r2, .error e)
      | (r2, .ok idx) => (objSetCol r2 o column (.vLink (some idx)), .ok ())
  | .array =>
    addLinks A ctx o column property.object_type value try_update
      (List.range (A.array_size ctx value))
      (objSetCol r o column (.vLinkList []))

/-- `Object::set_property_value`: resolve the property name against the
schema, failing for an unknown name, then dispatch to the impl. -/
def set_property_value (A : NativeAccessor Ctx Value) (ctx : Ctx) (o : Object)
    (prop_name : String) (value : Value) (try_update : Bool) (r : Realm) :
    Realm × Except RError Unit :=
  match o.schema.property_for_name prop_name with
  | none => (r, .error (.unknownProperty prop_name o.schema.name))
  | some p => set_property_value_impl A ctx o p value try_update r

/-- The primary-key locate phase of `Object::create`: when a primary key is
declared, extract its value from the input with `dict_value_for_key` and
search the backing table, with `find_first_string` for a String key and
`find_first_int` otherwise; with no primary key, no row is searched for. -/
def findRowIndex (A : NativeAccessor Ctx Value) (ctx : Ctx) (realm : Realm)
    (schema : ObjectSchema) (value : Value) : Except RError (Option Nat) :=
  match schema.primary_key_property with
  | none => .ok none
  | some pp =>
    let primary_value := A.dict_value_for_key ctx value schema.primary_key
    if pp.type = PropertyType.string then
      match A.to_string ctx primary_value with
      | .error e => .error e
      | .ok s => .ok (find_first_string (getTable realm schema.name) pp.table_column s)
    else
      match A.to_long ctx primary_value with
      | .error e => .error e
      | .ok n => .ok (find_first_int (getTable realm schema.name) pp.table_column n)

/-- The populate loop of `Object::create`: for each property in declaration
order, when `created` or the property is not the primary key, write the
input's value if present, else on creation write the registered default or
fail with the missing-value error; on update an omitted property is left
untouched. -/
def populateProps (A : NativeAccessor Ctx Value) (ctx : Ctx) (schema : ObjectSchema)
    (value : Value) (o : Object) (created try_update : Bool) :
    List Property → Realm → Realm × Except RError Unit
  | [], r => (r, .ok ())
  | prop :: rest, r =>
    if created || !prop.is_primary then
      if A.dict_has_value_for_key ctx value prop.name then
        match set_property_value_impl A ctx o prop
            (A.dict_value_for_key ctx value prop.name) try_update r with
        | (r2, .ok _) => populateProps A ctx schema value o created try_update rest r2
        | (r2, .error e) => (r2, .error e)
      else if created then
        if A.has_default_value_for_property ctx schema prop.name then
          match set_property_value_impl A ctx o prop
              (A.default_value_for_property ctx schema prop.name) try_update r with
          | (r2, .ok _) => populateProps A ctx schema value o created try_update rest r2
          | (r2, .error e) => (r2, .error e)
        else (r, .error (.missingValue prop.name))
      else populateProps A ctx schema value o created try_update rest r
    else populateProps A ctx schema value o created try_update rest r

/-- `Object::create`: require an active write transaction, locate an
existing row by primary key (rejecting a duplicate key unless updating is
allowed), otherwise append a fresh empty row, then populate every property
in declaration order. -/
def create (A : NativeAccessor Ctx Value) (ctx : Ctx) (realm : Realm)
    (schema : ObjectSchema) (value : Value) (try_update : Bool) :
    Realm × Except RError Object :=
  if realm.in_transaction = false then (realm, .error .transactionState)
  else
    match findRowIndex A ctx realm schema value with
    | .error e => (realm, .error e)
    | .ok (some j) =>
      if try_update = false then (realm, .error (.duplicateKey schema.name))
      else
        let o : Object := ⟨schema, schema.name, j⟩
        match populateProps A ctx schema value o false try_update schema.properties realm with
        | (r2, .ok _) => (r2, .ok o)
        | (r2, .error e) => (r2, .error e)
    | .ok none =>
      let t := getTable realm schema.name
      let r1 := setTable realm schema.name (t ++ [[]])
      let o : Object := ⟨schema, schema.name, t.length⟩
      match populateProps A ctx schema value o true try_update schema.properties r1 with
      | (r2, .ok _) => (r2, .ok o)
      | (r2, .error e) => (r2, .error e)

/-- A concrete dynamic value type standing in for one front-end's
`ValueType`, used to exercise the embedding on closed inputs. -/
inductive TestVal where
  | null
  | vi (n : Int)
  | vs (s : String)
  | vb (b : Bool)
  | dict (fields : List (String × TestVal))
  | arr (elems : List TestVal)

def lookupField (fs : List (String × TestVal)) (k : String) : Option TestVal :=
  match fs with
  | [] => none
  | (k', v) :: rest => if k' = k then some v else lookupField rest k

/-- A concrete `NativeAccessor` implementation over `TestVal`: dict fields
by association list, scalar conversions succeed exactly on the matching
constructor, `to_object_index` resolves an integer value to that row index
without touching the realm. -/
def testAcc : NativeAccessor Unit TestVal where
  dict_has_value_for_key := fun _ v k =>
    match v with
    | .dict fs => (lookupField fs k).isSome
    | _ => false
  dict_value_for_key := fun _ v k =>
    match v with
    | .dict fs => (lookupField fs k).getD .null
    | _ => .null
  has_default_value_for_property := fun _ _ _ => false
  default_value_for_property := fun _ _ _ => .null
  to_bool := fun _ v => match v with | .vb b => .ok b | _ => .error (.conversion "bool")
  to_long := fun _ v => match v with | .vi n => .ok n | _ => .error (.conversion "long")
  to_float := fun _ v => match v with | .vi n => .ok n | _ => .error (.conversion "float")
  to_double := fun _ v => match v with | .vi n => .ok n | _ => .error (.conversion "double")
  to_string := fun _ v => match v with | .vs s => .ok s | _ => .error (.conversion "string")
  to_datetime := fun _ v => match v with | .vi n => .ok n | _ => .error (.conversion "datetime")
  is_null := fun _ v => match v with | .null => true | _ => false
  to_object_index := fun _ r v _ _ =>
    match v with
    | .vi n => (r, .ok n.toNat)
    | _ => (r, .error (.conversion "object"))
  array_size := fun _ v => match v with | .arr es => es.length | _ => 0
  array_value_at_index := fun _ v idx =>
    match v with
    | .arr es => es.getD idx .null
    | _ => .null

/-- Witness fixtures: a small concrete schema/realm exercised by the claim
theorems below. -/
def wIdProp : Property := ⟨"id", .int, "", 0, true⟩

def wStrProp : Property := ⟨"x", .string, "", 1, false⟩

def wSchema : ObjectSchema := ⟨"T", [wIdProp, wStrProp], "id"⟩

def wRealm : Realm := ⟨true, [("T", [[(0, .vInt 1), (1, .vString "old")]])]⟩

def wVal : TestVal := .dict [("id", .vi 1)]

def wObj : Object := ⟨wSchema, "T", 0⟩

def wAProp : Property := ⟨"a", .int, "", 0, false⟩

def wSchemaNoPK : ObjectSchema := ⟨"U", [wAProp], ""⟩

def wObjU : Object := ⟨wSchemaNoPK, "U", 0⟩

def wEmptyRealm : Realm := ⟨true, [("U", [[]])]⟩

def wLinkProp : Property := ⟨"ref", .object, "T", 2, false⟩

def wAnyProp : Property := ⟨"legacy", .any, "", 3, false⟩

/-- C2: with an active transaction, when the primary-key locate phase finds
an existing row and `upsertAllowed=false`, `create` fails with the
duplicate-key error and returns the realm state completely unchanged: no
row is allocated and no column of any row is written. -/
theorem create_duplicate_key_no_mutation
    (A : NativeAccessor Ctx Value) (ctx : Ctx) (realm : Realm)
    (schema : ObjectSchema) (value : Value) (j : Nat)
    (hT : realm.in_transaction = true)
    (hfind : findRowIndex A ctx realm schema value = .ok (some j)) :
    create A ctx realm schema value false
      = (realm, .error (.duplicateKey schema.name)) := by
  simp [create, hT, hfind]

theorem create_duplicate_key_no_mutation_witness :
    wRealm.in_transaction = true
    ∧ findRowIndex testAcc () wRealm wSchema wVal = .ok (some 0)
    ∧ create testAcc () wRealm wSchema wVal false
        = (wRealm, .error (.duplicateKey wSchema.name)) :=
  ⟨rfl, rfl,
    create_duplicate_key_no_mutation testAcc () wRealm wSchema wVal 0 rfl rfl⟩

/-- C3: on the creation path (`created = true`), as soon as the populate
loop in declaration order reaches a property with no explicit input entry
and no registered default, it fails with the missing-value error naming
that property, leaving the state exactly as it was when the property was
reached (so that property's column is not written and no later property is
processed); consequently a primary-key-less `create` whose first property
is such a property fails right after allocating the empty row. -/
theorem create_missing_value_aborts
    (A : NativeAccessor Ctx Value) (ctx : Ctx) (schema : ObjectSchema)
    (value : Value) (o : Object) (p : Property) (rest : List Property)
    (try_update : Bool) (realm : Realm)
    (hnd : A.dict_has_value_for_key ctx value p.name = false)
    (hnodef : A.has_default_value_for_property ctx schema p.name = false) :
    populateProps A ctx schema value o true try_update (p :: rest) realm
      = (realm, .error (.missingValue p.name))
    ∧ (schema.primary_key_property = none → realm.in_transaction = true →
        schema.properties = p :: rest →
        create A ctx realm schema value try_update
          = (setTable realm schema.name (getTable realm schema.name ++ [[]]),
             .error (.missingValue p.name))) := by
  have hp : ∀ r : Realm, populateProps A ctx schema value o true try_update (p :: rest) r
      = (r, .error (.missingValue p.name)) := by
    intro r
    simp [populateProps, hnd, hnodef]
  refine ⟨hp realm, fun hpk hT hprops => ?_⟩
  have hfind : findRowIndex A ctx realm schema value = .ok none := by
    simp [findRowIndex, hpk]
  have hp2 : ∀ (o' : Object) (r : Realm),
      populateProps A ctx schema value o' true try_update (p :: rest) r
        = (r, .error (.missingValue p.name)) := by
    intro o' r
    simp [populateProps, hnd, hnodef]
  simp [create, hT, hfind, hprops, hp2]

theorem create_missing_value_aborts_witness :
    testAcc.dict_has_value_for_key () (.dict []) wAProp.name = false
    ∧ testAcc.has_default_value_for_property () wSchemaNoPK wAProp.name = false
    ∧ populateProps testAcc () wSchemaNoPK (.dict []) wObjU true false [wAProp] wEmptyRealm
        = (wEmptyRealm, .error (.missingValue wAProp.name)) :=
  ⟨rfl, rfl,
    (create_missing_value_aborts testAcc () wSchemaNoPK (.dict []) wObjU wAProp []
      false wEmptyRealm rfl rfl).1⟩

/-- C6: a write through `set_property_value` referencing a property name
absent from the schema fails with the unknown-property error naming the
property and the object type, identically for both values of the
`try_update` flag (create and update paths), and performs no mutation. -/
theorem set_unknown_property_fails
    (A : NativeAccessor Ctx Value) (ctx : Ctx) (o : Object) (prop_name : String)
    (value : Value) (try_update : Bool) (r : Realm)
    (h : o.schema.property_for_name prop_name = none) :
    set_property_value A ctx o prop_name value try_update r
      = (r, .error (.unknownProperty prop_name o.schema.name)) := by
  simp [set_property_value, h]

theorem set_unknown_property_fails_witness :
    wObj.schema.property_for_name "bogus" = none
    ∧ set_property_value testAcc () wObj "bogus" (.vs "z") true wRealm
        = (wRealm, .error (.unknownProperty "bogus" wObj.schema.name))
    ∧ set_property_value testAcc () wObj "bogus" (.vs "z") false wRealm
        = (wRealm, .error (.unknownProperty "bogus" wObj.schema.name)) :=
  ⟨by decide,
    set_unknown_property_fails testAcc () wObj "bogus" (.vs "z") true wRealm (by decide),
    set_unknown_property_fails testAcc () wObj "bogus" (.vs "z") false wRealm (by decide)⟩

/-- C7: for an Object-link property, a value the accessor reports as null
clears the link column and raises no error; a non-null value is resolved or
created through `to_object_index` — receiving the property's declared
target type and the forwarded `try_update` flag — and on success the column
is pointed at the returned row (on failure the error propagates with the
state `to_object_index` left behind). -/
theorem set_object_link_null_or_resolve
    (A : NativeAccessor Ctx Value) (ctx : Ctx) (o : Object) (p : Property)
    (value : Value) (try_update : Bool) (r : Realm)
    (hty : p.type = .object) :
    (A.is_null ctx value = true →
      set_property_value_impl A ctx o p value try_update r
        = (objSetCol r o p.table_column (.vLink none), .ok ()))
    ∧ (A.is_null ctx value = false → ∀ r2 idx,
        A.to_object_index ctx r value p.object_type try_update = (r2, .ok idx) →
        set_property_value_impl A ctx o p value try_update r
          = (objSetCol r2 o p.table_column (.vLink (some idx)), .ok ()))
    ∧ (A.is_null ctx value = false → ∀ r2 e,
        A.to_object_index ctx r value p.object_type try_update = (r2, .error e) →
        set_property_value_impl A ctx o p value try_update r = (r2, .error e)) := by
  refine ⟨fun hnull => ?_, fun hnn r2 idx hresolve => ?_, fun hnn r2 e hresolve => ?_⟩
  · simp [set_property_value_impl, hty, hnull]
  · simp [set_property_value_impl, hty, hnn, hresolve]
  · simp [set_property_value_impl, hty, hnn, hresolve]

theorem set_object_link_null_or_resolve_witness :
    wLinkProp.type = PropertyType.object
    ∧ testAcc.is_null () .null = true
    ∧ set_property_value_impl testAcc () wObj wLinkProp .null true wRealm
        = (objSetCol wRealm wObj wLinkProp.table_column (.vLink none), .ok ()) :=
  ⟨rfl, rfl,
    (set_object_link_null_or_resolve testAcc () wObj wLinkProp .null true wRealm rfl).1 rfl⟩

/-- C8: a write to a property of the deprecated LegacyAny type always
fails with the unsupported-type error (`to_mixed` throws before
`set_mixed` can run), for every input value, leaving the state unchanged:
the value is never accepted or stored. -/
theorem set_any_always_unsupported
    (A : NativeAccessor Ctx Value) (ctx : Ctx) (o : Object) (p : Property)
    (value : Value) (try_update : Bool) (r : Realm)
    (hty : p.type = .any) :
    set_property_value_impl A ctx o p value try_update r
      = (r, .error .unsupportedType) := by
  simp [set_property_value_impl, hty, to_mixed]

theorem set_any_always_unsupported_witness :
    wAnyProp.type = PropertyType.any
    ∧ set_property_value_impl testAcc () wObj wAnyProp (.vs "anything") true wRealm
        = (wRealm, .error .unsupportedType) :=
  ⟨rfl, set_any_always_unsupported testAcc () wObj wAnyProp (.vs "anything") true wRealm rfl⟩

/-- C9: the primary-key locate phase of `create` reads the key with
`dict_value_for_key` alone: replacing `dict_has_value_for_key`,
`has_default_value_for_property` and `default_value_for_property` by
arbitrary other functions leaves the locate result untouched, so a
presence check is never made and a registered default is never consulted
to find the row — the input itself must supply the key.  The locate phase
does not depend on `try_update`, so this holds on the create path and the
update path alike. -/
theorem primary_key_lookup_ignores_presence_and_defaults
    (A : NativeAccessor Ctx Value)
    (dh : Ctx → Value → String → Bool)
    (hd : Ctx → ObjectSchema → String → Bool)
    (dv : Ctx → ObjectSchema → String → Value)
    (ctx : Ctx) (realm : Realm) (schema : ObjectSchema) (value : Value) :
    findRowIndex
      { A with dict_has_value_for_key := dh,
               has_default_value_for_property := hd,
               default_value_for_property := dv } ctx realm schema value
      = findRowIndex A ctx realm schema value := rfl

/-- Soundness of the backend search: a found index satisfies the predicate
and is the first to do so. -/
theorem findFirst_eq_some (pred : Row → Bool) (t : Table) (j : Nat)
    (h : findFirst pred t = some j) :
    pred (getRow t j) = true ∧ ∀ i, i < j → pred (getRow t i) = false := by
  induction t generalizing j with
  | nil => simp [findFirst] at h
  | cons row rest ih =>
    by_cases hp : pred row
    · simp [findFirst, hp] at h
      subst h
      exact ⟨by simpa [getRow] using hp, fun i hi => absurd hi (by omega)⟩
    · simp [findFirst, hp] at h
      obtain ⟨j', hj', hj⟩ := h
      subst hj
      obtain ⟨h1, h2⟩ := ih j' hj'
      refine ⟨by simpa [getRow] using h1, fun i hi => ?_⟩
      cases i with
      | zero => simpa [getRow] using hp
      | succ i' => simpa [getRow] using h2 i' (by omega)

/-- Any object returned by a successful `create` sits either at the row the
locate phase found, or at the freshly appended row. -/
theorem create_ok_object
    (A : NativeAccessor Ctx Value) (ctx : Ctx) (realm : Realm)
    (schema : ObjectSchema) (value : Value) (tu : Bool)
    (hT : realm.in_transaction = true) :
    ∀ o, (create A ctx realm schema value tu).2 = .ok o →
      (∃ j, findRowIndex A ctx realm schema value = .ok (some j)
          ∧ o = ⟨schema, schema.name, j⟩)
      ∨ (findRowIndex A ctx realm schema value = .ok none
          ∧ o = ⟨schema, schema.name, (getTable realm schema.name).length⟩) := by
  intro o hok
  simp only [create, hT] at hok
  rcases hfind : findRowIndex A ctx realm schema value with e | jq
  · rw [hfind] at hok
    simp at hok
  · rw [hfind] at hok
    cases jq with
    | some j =>
      rcases htu : tu with _ | _
      · rw [htu] at hok; simp at hok
      · rw [htu] at hok
        simp only [Bool.true_eq_false, if_false] at hok
        rcases hpop : populateProps A ctx schema value ⟨schema, schema.name, j⟩ false true schema.properties realm with ⟨r2, res⟩
        rw [hpop] at hok
        cases res with
        | ok u =>
          simp at hok
          exact Or.inl ⟨j, rfl, hok.symm⟩
        | error e => simp at hok
    | none =>
      rcases hpop : populateProps A ctx schema value ⟨schema, schema.name, (getTable realm schema.name).length⟩ true tu schema.properties (setTable realm schema.name (getTable realm schema.name ++ [[]])) with ⟨r2, res⟩
      rw [hpop] at hok
      cases res with
      | ok u =>
        simp at hok
        exact Or.inr ⟨rfl, hok.symm⟩
      | error e => simp at hok

/-- C5: the primary-key locate phase compares the extracted key for an
exact first match — string equality via `find_first_string` when the
primary-key property's type is String, integer equality via
`find_first_int` when it is Int; when a match exists and updating is
allowed the returned object reuses that row index, when no match exists
the returned object sits at a freshly allocated row (one past the prior
table end), and with no declared primary key no row is ever searched for
(so a new row is always allocated). -/
theorem create_primary_key_locate
    (A : NativeAccessor Ctx Value) (ctx : Ctx) (realm : Realm)
    (schema : ObjectSchema) (value : Value) :
    (∀ pp s, schema.primary_key_property = some pp → pp.type = PropertyType.string →
      A.to_string ctx (A.dict_value_for_key ctx value schema.primary_key) = .ok s →
      findRowIndex A ctx realm schema value
        = .ok (find_first_string (getTable realm schema.name) pp.table_column s)
      ∧ ∀ j, find_first_string (getTable realm schema.name) pp.table_column s = some j →
          rowGet (getRow (getTable realm schema.name) j) pp.table_column = .vString s
          ∧ ∀ i, i < j →
              rowGet (getRow (getTable realm schema.name) i) pp.table_column ≠ .vString s)
    ∧ (∀ pp n, schema.primary_key_property = some pp → pp.type = PropertyType.int →
      A.to_long ctx (A.dict_value_for_key ctx value schema.primary_key) = .ok n →
      findRowIndex A ctx realm schema value
        = .ok (find_first_int (getTable realm schema.name) pp.table_column n)
      ∧ ∀ j, find_first_int (getTable realm schema.name) pp.table_column n = some j →
          rowGet (getRow (getTable realm schema.name) j) pp.table_column = .vInt n
          ∧ ∀ i, i < j →
              rowGet (getRow (getTable realm schema.name) i) pp.table_column ≠ .vInt n)
    ∧ (∀ j, realm.in_transaction = true →
        findRowIndex A ctx realm schema value = .ok (some j) →
        ∀ o, (create A ctx realm schema value true).2 = .ok o → o.rowIndex = j)
    ∧ (realm.in_transaction = true →
        findRowIndex A ctx realm schema value = .ok none →
        ∀ tu o, (create A ctx realm schema value tu).2 = .ok o →
          o.rowIndex = (getTable realm schema.name).length)
    ∧ (schema.primary_key_property = none →
        findRowIndex A ctx realm schema value = .ok none) := by
  refine ⟨fun pp s hpk hty hconv => ?_, fun pp n hpk hty hconv => ?_,
    fun j hT hfind o hok => ?_, fun hT hfind tu o hok => ?_, fun hpk => ?_⟩
  · constructor
    · simp [findRowIndex, hpk, hty, hconv]
    · intro j hj
      obtain ⟨h1, h2⟩ := findFirst_eq_some _ _ _ hj
      exact ⟨of_decide_eq_true h1, fun i hi => of_decide_eq_false (h2 i hi)⟩
  · constructor
    · simp [findRowIndex, hpk, hty, hconv]
    · intro j hj
      obtain ⟨h1, h2⟩ := findFirst_eq_some _ _ _ hj
      exact ⟨of_decide_eq_true h1, fun i hi => of_decide_eq_false (h2 i hi)⟩
  · rcases create_ok_object A ctx realm schema value true hT o hok with ⟨j', hf, rfl⟩ | ⟨hf, rfl⟩
    · rw [hfind] at hf
      simp at hf
      simp [hf]
    · rw [hfind] at hf
      simp at hf
  · rcases create_ok_object A ctx realm schema value tu hT o hok with ⟨j', hf, rfl⟩ | ⟨hf, rfl⟩
    · rw [hfind] at hf
      simp at hf
    · rfl
  · simp [findRowIndex, hpk]


theorem create_primary_key_locate_witness :
    wSchema.primary_key_property = some wIdProp
    ∧ wIdProp.type = PropertyType.int
    ∧ testAcc.to_long () (testAcc.dict_value_for_key () wVal wSchema.primary_key) = .ok 1
    ∧ findRowIndex testAcc () wRealm wSchema wVal
        = .ok (find_first_int (getTable wRealm wSchema.name) wIdProp.table_column 1) :=
  ⟨rfl, rfl, rfl,
    ((create_primary_key_locate testAcc () wRealm wSchema wVal).2.1 wIdProp 1 rfl rfl rfl).1⟩

/-- Reading back the table after a single-cell write. -/
theorem getTable_objSetCol (r : Realm) (o : Object) (c : Nat) (v : StoredValue) :
    getTable (objSetCol r o c v) o.tableName
      = (getTable r o.tableName).set o.rowIndex
          (rowSet (getRow (getTable r o.tableName) o.rowIndex) c v) := by
  simp [objSetCol, realmSetCol, getTable_setTable_same]

theorem length_objSetCol (r : Realm) (o : Object) (c : Nat) (v : StoredValue) :
    (getTable (objSetCol r o c v) o.tableName).length
      = (getTable r o.tableName).length := by
  simp [getTable_objSetCol]

theorem objGetCol_objSetCol_same (r : Realm) (o : Object) (c : Nat) (v : StoredValue)
    (hvalid : o.rowIndex < (getTable r o.tableName).length) :
    objGetCol (objSetCol r o c v) o c = v := by
  simp [objGetCol, getTable_objSetCol, getRow, getD_set_self, hvalid, rowGet_rowSet_same]

theorem objSetCol_objSetCol (r : Realm) (o : Object) (c : Nat) (v v' : StoredValue)
    (hvalid : o.rowIndex < (getTable r o.tableName).length) :
    objSetCol (objSetCol r o c v) o c v' = objSetCol r o c v' := by
  simp [objSetCol, realmSetCol, getTable_setTable_same, getRow, getD_set_self, hvalid,
    rowSet_rowSet, List.set_set, setTable_setTable]

/-- `link_view->add` loop under a side-effect-free resolver: appends the
resolved index of each element in order. -/
theorem addLinks_pure (A : NativeAccessor Ctx Value) (ctx : Ctx) (o : Object)
    (col : Nat) (ty : String) (value : Value) (tu : Bool)
    (f : Value → String → Bool → Nat)
    (hpure : ∀ r val ty2 tu2, A.to_object_index ctx r val ty2 tu2 = (r, .ok (f val ty2 tu2)))
    (realm : Realm) (hvalid : o.rowIndex < (getTable realm o.tableName).length) :
    ∀ (ks : List Nat) (acc : List Nat),
      addLinks A ctx o col ty value tu ks (objSetCol realm o col (.vLinkList acc))
        = (objSetCol realm o col
            (.vLinkList (acc ++ ks.map fun k => f (A.array_value_at_index ctx value k) ty tu)),
           .ok ()) := by
  intro ks
  induction ks with
  | nil => intro acc; simp [addLinks]
  | cons k rest ih =>
    intro acc
    have hget : objGetCol (objSetCol realm o col (.vLinkList acc)) o col = .vLinkList acc :=
      objGetCol_objSetCol_same realm o col _ hvalid
    simp only [addLinks, hpure, hget, getLinkList,
      objSetCol_objSetCol realm o col _ _ hvalid]
    rw [ih (acc ++ [f (A.array_value_at_index ctx value k) ty tu])]
    simp

/-- C4: writing an Array-of-links property first clears the column's link
collection and then appends one link per input element for indices
0..N-1 in order: when `to_object_index` resolves elements without realm
side effects (resolution function `f`), the final column holds exactly the
N resolved links in input order — empty when N = 0 — each element resolved
with the property's declared target type and the forwarded `try_update`
flag, and the prior contents never appear in the result. -/
theorem set_array_replaces_with_input_links
    (A : NativeAccessor Ctx Value) (ctx : Ctx) (o : Object) (p : Property)
    (value : Value) (try_update : Bool) (realm : Realm)
    (f : Value → String → Bool → Nat)
    (hty : p.type = .array)
    (hvalid : o.rowIndex < (getTable realm o.tableName).length)
    (hpure : ∀ r val ty2 tu2,
      A.to_object_index ctx r val ty2 tu2 = (r, .ok (f val ty2 tu2))) :
    set_property_value_impl A ctx o p value try_update realm
      = (objSetCol realm o p.table_column
          (.vLinkList ((List.range (A.array_size ctx value)).map
            fun k => f (A.array_value_at_index ctx value k) p.object_type try_update)),
         .ok ()) := by
  simp only [set_property_value_impl, hty]
  have h := addLinks_pure A ctx o p.table_column p.object_type value try_update f hpure
    realm hvalid (List.range (A.array_size ctx value)) []
  simpa using h

/-- `link_view->add` loop when the resolver fails at element `k`: the links
for the prefix remain, the error propagates. -/
theorem addLinks_fail (A : NativeAccessor Ctx Value) (ctx : Ctx) (o : Object)
    (col : Nat) (ty : String) (value : Value) (tu : Bool)
    (f : Nat → Nat) (k : Nat) (e : RError)
    (hok : ∀ r idx, idx < k →
      A.to_object_index ctx r (A.array_value_at_index ctx value idx) ty tu = (r, .ok (f idx)))
    (hfail : ∀ r,
      A.to_object_index ctx r (A.array_value_at_index ctx value k) ty tu = (r, .error e))
    (realm : Realm) (hvalid : o.rowIndex < (getTable realm o.tableName).length) :
    ∀ (ks1 rest : List Nat) (acc : List Nat), (∀ j ∈ ks1, j < k) →
      addLinks A ctx o col ty value tu (ks1 ++ k :: rest) (objSetCol realm o col (.vLinkList acc))
        = (objSetCol realm o col (.vLinkList (acc ++ ks1.map f)), .error e) := by
  intro ks1
  induction ks1 with
  | nil =>
    intro rest acc _
    simp only [List.nil_append, addLinks, hfail, List.map_nil, List.append_nil]
  | cons j js ih =>
    intro rest acc hmem
    have hget : objGetCol (objSetCol realm o col (.vLinkList acc)) o col = .vLinkList acc :=
      objGetCol_objSetCol_same realm o col _ hvalid
    simp only [List.cons_append, addLinks, hok _ j (hmem j (by simp)), hget, getLinkList,
      objSetCol_objSetCol realm o col _ _ hvalid]
    have h2 := ih rest (acc ++ [f j]) (fun x hx => hmem x (by simp [hx]))
    simpa using h2

/-- C10: the Array-of-links write is not atomic — the collection is cleared
before any element is converted, so when resolving element `k` fails after
elements 0..k-1 resolved (side-effect-free), the write aborts with the
error while the column already holds exactly the `k` links for elements
0..k-1 in input order; the prior contents are lost. -/
theorem set_array_partial_write_on_failure
    (A : NativeAccessor Ctx Value) (ctx : Ctx) (o : Object) (p : Property)
    (value : Value) (try_update : Bool) (realm : Realm)
    (f : Nat → Nat) (k : Nat) (e : RError)
    (hty : p.type = .array)
    (hvalid : o.rowIndex < (getTable realm o.tableName).length)
    (hk : k < A.array_size ctx value)
    (hok : ∀ r idx, idx < k →
      A.to_object_index ctx r (A.array_value_at_index ctx value idx) p.object_type try_update
        = (r, .ok (f idx)))
    (hfail : ∀ r,
      A.to_object_index ctx r (A.array_value_at_index ctx value k) p.object_type try_update
        = (r, .error e)) :
    set_property_value_impl A ctx o p value try_update realm
      = (objSetCol realm o p.table_column (.vLinkList ((List.range k).map f)), .error e) := by
  simp only [set_property_value_impl, hty]
  obtain ⟨m, hm⟩ : ∃ m, A.array_size ctx value = k + (m + 1) :=
    ⟨A.array_size ctx value - k - 1, by omega⟩
  have hsplit : List.range (A.array_size ctx value)
      = List.range k ++ k :: ((List.range m).map fun x => k + (x + 1)) := by
    rw [hm, List.range_add, List.range_succ_eq_map]
    simp [Function.comp]
  rw [hsplit]
  have h := addLinks_fail A ctx o p.table_column p.object_type value try_update f k e hok hfail
    realm hvalid (List.range k) ((List.range m).map fun x => k + (x + 1)) []
    (fun j hj => List.mem_range.mp hj)
  simpa using h


def tvIndex (v : TestVal) : Nat :=
  match v with
  | .vi n => n.toNat
  | _ => 0

/-- `testAcc` with a total, side-effect-free `to_object_index`. -/
def testAccTotal : NativeAccessor Unit TestVal :=
  { testAcc with to_object_index := fun _ r v _ _ => (r, .ok (tvIndex v)) }

def wArrProp : Property := ⟨"refs", .array, "T", 4, false⟩

theorem set_array_replaces_with_input_links_witness :
    wArrProp.type = PropertyType.array
    ∧ wObj.rowIndex < (getTable wRealm wObj.tableName).length
    ∧ set_property_value_impl testAccTotal () wObj wArrProp (.arr [.vi 3, .vi 0, .vi 3]) true wRealm
        = (objSetCol wRealm wObj wArrProp.table_column (.vLinkList [3, 0, 3]), .ok ()) :=
  ⟨rfl, by decide,
    set_array_replaces_with_input_links testAccTotal () wObj wArrProp
      (.arr [.vi 3, .vi 0, .vi 3]) true wRealm (fun v _ _ => tvIndex v) rfl (by decide)
      (fun _ _ _ _ => rfl)⟩

theorem set_array_partial_write_on_failure_witness :
    wArrProp.type = PropertyType.array
    ∧ wObj.rowIndex < (getTable wRealm wObj.tableName).length
    ∧ (1 : Nat) < testAcc.array_size () (.arr [.vi 5, .vs "bad", .vi 7])
    ∧ set_property_value_impl testAcc () wObj wArrProp (.arr [.vi 5, .vs "bad", .vi 7]) false wRealm
        = (objSetCol wRealm wObj wArrProp.table_column (.vLinkList [5]),
           .error (.conversion "object")) :=
  ⟨rfl, by decide, by decide,
    set_array_partial_write_on_failure testAcc () wObj wArrProp
      (.arr [.vi 5, .vs "bad", .vi 7]) false wRealm (fun _ => 5) 1 (.conversion "object")
      rfl (by decide) (by decide)
      (fun r idx hidx =>
        match idx, hidx with
        | 0, _ => rfl
        | (n + 1), h => absurd h (by omega))
      (fun _ => rfl)⟩

theorem getRow_objSetCol_other (r : Realm) (o : Object) (c : Nat) (v : StoredValue)
    (i : Nat) (hi : i ≠ o.rowIndex) :
    getRow (getTable (objSetCol r o c v) o.tableName) i
      = getRow (getTable r o.tableName) i := by
  rw [getTable_objSetCol]
  exact getD_set_other _ _ _ _ hi

theorem objSetCol_cell_other (r : Realm) (o : Object) (c : Nat) (v : StoredValue)
    (c' : Nat) (hc : c' ≠ c) :
    rowGet (getRow (getTable (objSetCol r o c v) o.tableName) o.rowIndex) c'
      = rowGet (getRow (getTable r o.tableName) o.rowIndex) c' := by
  rw [getTable_objSetCol]
  by_cases hvalid : o.rowIndex < (getTable r o.tableName).length
  · simp only [getRow]
    rw [getD_set_self]
    simp only [hvalid, if_true]
    exact rowGet_rowSet_other _ _ _ _ hc
  · have h1 : getRow (getTable r o.tableName) o.rowIndex = [] :=
      List.getD_eq_default _ _ (by omega)
    simp only [getRow]
    rw [getD_set_self]
    simp only [hvalid, if_false]
    rw [show (getTable r o.tableName).getD o.rowIndex [] = [] from h1]

/-- `r'` agrees with `r` on table `tn` except possibly at columns violating
`P` in row `j`: same row count, all other rows identical, and row `j`
unchanged at every column satisfying `P`. -/
def FrameOn (tn : String) (j : Nat) (P : Nat → Prop) (r r' : Realm) : Prop :=
  (getTable r' tn).length = (getTable r tn).length
  ∧ (∀ i, i ≠ j → getRow (getTable r' tn) i = getRow (getTable r tn) i)
  ∧ (∀ c, P c → rowGet (getRow (getTable r' tn) j) c = rowGet (getRow (getTable r tn) j) c)

theorem FrameOn.refl (tn : String) (j : Nat) (P : Nat → Prop) (r : Realm) :
    FrameOn tn j P r r :=
  ⟨rfl, fun _ _ => rfl, fun _ _ => rfl⟩

theorem FrameOn.trans {tn : String} {j : Nat} {P : Nat → Prop} {r r2 r3 : Realm}
    (h1 : FrameOn tn j P r r2) (h2 : FrameOn tn j P r2 r3) : FrameOn tn j P r r3 :=
  ⟨h2.1.trans h1.1,
   fun i hi => (h2.2.1 i hi).trans (h1.2.1 i hi),
   fun c hc => (h2.2.2 c hc).trans (h1.2.2 c hc)⟩

theorem FrameOn.mono {tn : String} {j : Nat} {P Q : Nat → Prop} {r r' : Realm}
    (hPQ : ∀ c, Q c → P c) (h : FrameOn tn j P r r') : FrameOn tn j Q r r' :=
  ⟨h.1, h.2.1, fun c hc => h.2.2 c (hPQ c hc)⟩

theorem frameOn_of_table_eq {tn : String} {j : Nat} {P : Nat → Prop} {r r' : Realm}
    (h : getTable r' tn = getTable r tn) : FrameOn tn j P r r' :=
  ⟨by rw [h], fun i _ => by rw [h], fun c _ => by rw [h]⟩

theorem frameOn_objSetCol (r : Realm) (o : Object) (c : Nat) (v : StoredValue) :
    FrameOn o.tableName o.rowIndex (fun c' => c' ≠ c) r (objSetCol r o c v) :=
  ⟨length_objSetCol r o c v,
   fun i hi => getRow_objSetCol_other r o c v i hi,
   fun c' hc => objSetCol_cell_other r o c v c' hc⟩

/-- The array-write loop touches only the link-list column of the target
row (given that nested `to_object_index` calls leave the target's table
alone). -/
theorem addLinks_frame (A : NativeAccessor Ctx Value) (ctx : Ctx) (o : Object)
    (col : Nat) (ty : String) (value : Value) (tu : Bool)
    (hframe : ∀ r2 val ty2 tu2,
      getTable (A.to_object_index ctx r2 val ty2 tu2).1 o.tableName
        = getTable r2 o.tableName) :
    ∀ (ks : List Nat) (r : Realm),
      FrameOn o.tableName o.rowIndex (fun c' => c' ≠ col) r
        (addLinks A ctx o col ty value tu ks r).1 := by
  intro ks
  induction ks with
  | nil => intro r; exact FrameOn.refl _ _ _ _
  | cons k rest ih =>
    intro r
    rcases h2 : A.to_object_index ctx r (A.array_value_at_index ctx value k) ty tu
      with ⟨r2, res⟩
    have htab : getTable r2 o.tableName = getTable r o.tableName := by
      have h3 := hframe r (A.array_value_at_index ctx value k) ty tu
      rw [h2] at h3
      exact h3
    have hfr : FrameOn o.tableName o.rowIndex (fun c' => c' ≠ col) r r2 :=
      frameOn_of_table_eq htab
    cases res with
    | error e =>
      simp only [addLinks, h2]
      exact hfr
    | ok idx =>
      simp only [addLinks, h2]
      exact FrameOn.trans hfr
        (FrameOn.trans (frameOn_objSetCol r2 o col _) (ih _))

/-- A property write touches only that property's column of the target row
(in the target's table), whichever arm of the type dispatch runs and
whether or not it succeeds — given that nested `to_object_index` calls
leave the target's table alone. -/
theorem set_property_value_impl_frame (A : NativeAccessor Ctx Value) (ctx : Ctx)
    (o : Object) (p : Property) (value : Value) (tu : Bool) (r : Realm)
    (hframe : ∀ r2 val ty2 tu2,
      getTable (A.to_object_index ctx r2 val ty2 tu2).1 o.tableName
        = getTable r2 o.tableName) :
    FrameOn o.tableName o.rowIndex (fun c' => c' ≠ p.table_column) r
      (set_property_value_impl A ctx o p value tu r).1 := by
  cases hty : p.type with
  | bool =>
    rcases hc : A.to_bool ctx value with e | b <;> simp only [set_property_value_impl, hty, hc]
    · exact FrameOn.refl _ _ _ _
    · exact frameOn_objSetCol r o _ _
  | int =>
    rcases hc : A.to_long ctx value with e | n <;> simp only [set_property_value_impl, hty, hc]
    · exact FrameOn.refl _ _ _ _
    · exact frameOn_objSetCol r o _ _
  | float =>
    rcases hc : A.to_float ctx value with e | x <;> simp only [set_property_value_impl, hty, hc]
    · exact FrameOn.refl _ _ _ _
    · exact frameOn_objSetCol r o _ _
  | double =>
    rcases hc : A.to_double ctx value with e | x <;> simp only [set_property_value_impl, hty, hc]
    · exact FrameOn.refl _ _ _ _
    · exact frameOn_objSetCol r o _ _
  | string =>
    rcases hc : A.to_string ctx value with e | s <;> simp only [set_property_value_impl, hty, hc]
    · exact FrameOn.refl _ _ _ _
    · exact frameOn_objSetCol r o _ _
  | data =>
    rcases hc : A.to_string ctx value with e | s <;> simp only [set_property_value_impl, hty, hc]
    · exact FrameOn.refl _ _ _ _
    · exact frameOn_objSetCol r o _ _
  | any =>
    simp only [set_property_value_impl, hty, to_mixed]
    exact FrameOn.refl _ _ _ _
  | date =>
    rcases hc : A.to_datetime ctx value with e | d <;> simp only [set_property_value_impl, hty, hc]
    · exact FrameOn.refl _ _ _ _
    · exact frameOn_objSetCol r o _ _
  | object =>
    rcases hnull : A.is_null ctx value with _ | _
    · rcases h2 : A.to_object_index ctx r value p.object_type tu with ⟨r2, res⟩
      have htab : getTable r2 o.tableName = getTable r o.tableName := by
        have h3 := hframe r value p.object_type tu
        rw [h2] at h3
        exact h3
      cases res with
      | error e =>
        simp only [set_property_value_impl, hty, hnull, Bool.false_eq_true, if_false, h2]
        exact frameOn_of_table_eq htab
      | ok idx =>
        simp only [set_property_value_impl, hty, hnull, Bool.false_eq_true, if_false, h2]
        exact FrameOn.trans (frameOn_of_table_eq htab) (frameOn_objSetCol r2 o _ _)
    · simp only [set_property_value_impl, hty, hnull, if_true]
      exact frameOn_objSetCol r o _ _
  | array =>
    simp only [set_property_value_impl, hty]
    exact FrameOn.trans (frameOn_objSetCol r o _ _)
      (addLinks_frame A ctx o _ _ value tu hframe _ _)

/-- On the update path (`created = false`), the populate loop writes only
the columns of properties the input dict explicitly carries: row count and
all other rows are preserved, and so is every column of the target row not
belonging to a dict-present property. -/
theorem populateProps_update_frame (A : NativeAccessor Ctx Value) (ctx : Ctx)
    (schema : ObjectSchema) (value : Value) (o : Object) (tu : Bool)
    (hframe : ∀ r2 val ty2 tu2,
      getTable (A.to_object_index ctx r2 val ty2 tu2).1 o.tableName
        = getTable r2 o.tableName) :
    ∀ (ps : List Property) (r : Realm),
      FrameOn o.tableName o.rowIndex
        (fun c => ∀ q ∈ ps,
          A.dict_has_value_for_key ctx value q.name = true → q.table_column ≠ c)
        r (populateProps A ctx schema value o false tu ps r).1 := by
  intro ps
  induction ps with
  | nil => intro r; exact FrameOn.refl _ _ _ _
  | cons p rest ih =>
    intro r
    have hmono : ∀ c,
        (∀ q ∈ p :: rest,
          A.dict_has_value_for_key ctx value q.name = true → q.table_column ≠ c)
        → ∀ q ∈ rest,
            A.dict_has_value_for_key ctx value q.name = true → q.table_column ≠ c :=
      fun c hc q hq => hc q (List.mem_cons_of_mem _ hq)
    rcases hprim : p.is_primary with _ | _
    · rcases hdh : A.dict_has_value_for_key ctx value p.name with _ | _
      · simp only [populateProps, hprim, hdh, Bool.false_or, Bool.not_false, if_true,
          Bool.false_eq_true, if_false]
        exact FrameOn.mono hmono (ih r)
      · rcases himp : set_property_value_impl A ctx o p
            (A.dict_value_for_key ctx value p.name) tu r with ⟨r2, res⟩
        have hfr : FrameOn o.tableName o.rowIndex (fun c' => c' ≠ p.table_column) r r2 := by
          have h3 := set_property_value_impl_frame A ctx o p
            (A.dict_value_for_key ctx value p.name) tu r hframe
          rw [himp] at h3
          exact h3
        have hfr' : FrameOn o.tableName o.rowIndex
            (fun c => ∀ q ∈ p :: rest,
              A.dict_has_value_for_key ctx value q.name = true → q.table_column ≠ c)
            r r2 :=
          FrameOn.mono
            (fun c hc => Ne.symm (hc p (List.mem_cons_self _ _) hdh)) hfr
        cases res with
        | ok u =>
          simp only [populateProps, hprim, hdh, himp, Bool.false_or, Bool.not_false, if_true]
          exact FrameOn.trans hfr' (FrameOn.mono hmono (ih r2))
        | error e =>
          simp only [populateProps, hprim, hdh, himp, Bool.false_or, Bool.not_false, if_true]
          exact hfr'
    · simp only [populateProps, hprim, Bool.false_or, Bool.not_true, Bool.false_eq_true, if_false]
      exact FrameOn.mono hmono (ih r)

/-- C1: re-creating an existing primary key with `upsertAllowed=true`
reuses the found row (the table keeps its row count and the returned
object sits at the found index), leaves every other row of the table
untouched, and writes only the properties with an explicit input entry:
for every property omitted from the input dict, the previously stored
column value is unchanged.  Hypotheses: the schema's properties occupy
pairwise-distinct columns, and nested `to_object_index` resolution leaves
this schema's own table alone. -/
theorem create_upsert_updates_only_present
    (A : NativeAccessor Ctx Value) (ctx : Ctx) (realm : Realm)
    (schema : ObjectSchema) (value : Value) (j : Nat)
    (hT : realm.in_transaction = true)
    (hfind : findRowIndex A ctx realm schema value = .ok (some j))
    (hframe : ∀ r2 val ty2 tu2,
      getTable (A.to_object_index ctx r2 val ty2 tu2).1 schema.name
        = getTable r2 schema.name)
    (hcols : schema.properties.Pairwise (fun a b => a.table_column ≠ b.table_column)) :
    ((getTable (create A ctx realm schema value true).1 schema.name).length
      = (getTable realm schema.name).length)
    ∧ (∀ o, (create A ctx realm schema value true).2 = .ok o
        → o.rowIndex = j ∧ o.tableName = schema.name)
    ∧ (∀ i, i ≠ j →
        getRow (getTable (create A ctx realm schema value true).1 schema.name) i
          = getRow (getTable realm schema.name) i)
    ∧ (∀ q ∈ schema.properties, A.dict_has_value_for_key ctx value q.name = false →
        rowGet (getRow (getTable (create A ctx realm schema value true).1 schema.name) j)
            q.table_column
          = rowGet (getRow (getTable realm schema.name) j) q.table_column) := by
  have hkey : (create A ctx realm schema value true).1
      = (populateProps A ctx schema value ⟨schema, schema.name, j⟩ false true
          schema.properties realm).1 := by
    simp only [create, hT, hfind]
    rcases populateProps A ctx schema value ⟨schema, schema.name, j⟩ false true
      schema.properties realm with ⟨r2, res⟩
    cases res <;> rfl
  have hfr := populateProps_update_frame A ctx schema value ⟨schema, schema.name, j⟩ true
    hframe schema.properties realm
  refine ⟨?_, ?_, ?_, ?_⟩
  · rw [hkey]
    exact hfr.1
  · intro o hok
    rcases create_ok_object A ctx realm schema value true hT o hok
      with ⟨j', hf, rfl⟩ | ⟨hf, rfl⟩
    · rw [hfind] at hf
      simp at hf
      subst hf
      exact ⟨rfl, rfl⟩
    · rw [hfind] at hf
      simp at hf
  · intro i hi
    rw [hkey]
    exact hfr.2.1 i hi
  · intro q hq hqd
    rw [hkey]
    apply hfr.2.2
    intro p hp hpd
    have hne : p ≠ q := by
      intro heq
      rw [heq, hqd] at hpd
      simp at hpd
    exact List.Pairwise.forall (fun a b hab => Ne.symm hab) hcols hp hq hne

theorem create_upsert_updates_only_present_witness :
    wRealm.in_transaction = true
    ∧ findRowIndex testAcc () wRealm wSchema wVal = .ok (some 0)
    ∧ wSchema.properties.Pairwise (fun a b => a.table_column ≠ b.table_column)
    ∧ rowGet (getRow (getTable (create testAcc () wRealm wSchema wVal true).1 wSchema.name) 0)
          wStrProp.table_column
        = rowGet (getRow (getTable wRealm wSchema.name) 0) wStrProp.table_column :=
  ⟨rfl, rfl, by decide,
    (create_upsert_updates_only_present testAcc () wRealm wSchema wVal 0 rfl rfl
        (fun r2 val ty2 tu2 => by cases val <;> rfl)
        (by decide)).2.2.2
      wStrProp (by decide) rfl⟩
